import Mathlib

/-!
Shallow embedding of the jot text editor's buffer core
(src/row.rs, src/document.rs, src/editor.rs).

Rust `String`/`&str` values are modelled as lists of Unicode scalar values
(`List Char`); `str::len` (a byte count) becomes the sum of the UTF-8 sizes
of the scalars.  The `unicode_segmentation` crate's extended grapheme
clustering is modelled by `graphemes`, which groups a base scalar with the
run of combining marks that follows it (the fragment of UAX #29 exercised
by this code's inputs).  All machine integers involved are `usize` indices
and lengths far below overflow, and the source uses saturating arithmetic
for them, so they are modelled as `Nat` (where `Nat` subtraction is exactly
`usize::saturating_sub`).
-/

/-- Rust strings as lists of Unicode scalar values. -/
abbrev Str := List Char

/-- `str::len`: the length of the UTF-8 encoding of `s`, in bytes. -/
def utf8Len (s : Str) : Nat := (s.map Char.utf8Size).sum

/-- A combining mark (Combining Diacritical Marks block, U+0300..U+036F):
the scalars that extend the preceding base character into one grapheme
cluster under the model of `unicode_segmentation` used here. -/
def isCombining (c : Char) : Bool := decide (0x300 ≤ c.toNat ∧ c.toNat ≤ 0x36F)

/-- Helper for `graphemes`: `acc` is the cluster currently being built; a
combining mark extends it, any other scalar closes it and starts a new
cluster. -/
def graphemesAux (acc : Str) : Str → List Str
  | [] => [acc]
  | c :: rest =>
      if isCombining c then graphemesAux (acc ++ [c]) rest
      else acc :: graphemesAux [c] rest

/-- Model of `UnicodeSegmentation::graphemes(true)`: split a string into
extended grapheme clusters, each cluster being a scalar followed by its run
of combining marks. -/
def graphemes : Str → List Str
  | [] => []
  | c :: rest => graphemesAux [c] rest

/-- src/row.rs: `pub struct Row { text: String, len: usize }`. -/
structure Row where
  text : Str
  len : Nat
deriving DecidableEq, Repr

/-- src/row.rs: `#[derive(Default)]` for `Row`: empty text, length 0. -/
def Row.default : Row := ⟨[], 0⟩

/-- src/row.rs `impl From<&str> for Row`: stores the text and initializes
`len` with `line.len()`, the BYTE length of the string. -/
def Row.fromStr (line : Str) : Row := ⟨line, utf8Len line⟩

/-- src/row.rs `Row::is_empty`. -/
def Row.is_empty (r : Row) : Bool := r.len = 0

/-- The text that `Row::insert` pushes for one inserted character `c` when
it walks the graphemes: `"    "` (four spaces) if `c` is a tab, else `c`
itself. -/
def insertedText (c : Char) : Str := if c = '\t' then [' ', ' ', ' ', ' '] else [c]

/-- src/row.rs `Row::insert`: if `a >= len`, push `c` raw (no tab
expansion) and credit one cell; otherwise rebuild the line from its
graphemes, pushing the expansion of `c` just before the grapheme with
index `a`, and credit one cell. -/
def Row.insert (r : Row) (a : Nat) (c : Char) : Row :=
  if a ≥ r.len then ⟨r.text ++ [c], r.len + 1⟩
  else
    ⟨((graphemes r.text).enum.map
        (fun p => (if p.1 = a then insertedText c else []) ++ p.2)).flatten,
     r.len + 1⟩

/-- src/row.rs `Row::delete`: no-op if `a >= len`; otherwise rebuild the
line from every grapheme whose index is not `a` and debit one cell. -/
def Row.delete (r : Row) (a : Nat) : Row :=
  if a ≥ r.len then r
  else
    ⟨((graphemes r.text).enum.filter (fun p => p.1 ≠ a)).map Prod.snd |>.flatten,
     r.len - 1⟩

/-- src/row.rs `Row::split`: the graphemes with index `< a` become the new
`self` (with `len` recounted as their number), the rest become the returned
row (again with a recounted `len`).  The enumerate-and-compare loop of the
source partitions the grapheme list exactly as `take a` / `drop a` and
counts each side's pushes. -/
def Row.split (r : Row) (a : Nat) : Row × Row :=
  let gs := graphemes r.text
  (⟨(gs.take a).flatten, (gs.take a).length⟩,
   ⟨(gs.drop a).flatten, (gs.drop a).length⟩)

/-- src/row.rs `Row::append`: concatenate the texts, add the `len`s. -/
def Row.append (r other : Row) : Row := ⟨r.text ++ other.text, r.len + other.len⟩

/-- src/row.rs `Row::render`: clamp `e` to `len`, then `s` to the clamped
`e`, then walk the graphemes, skipping `s` of them and taking `e - s`, and
push only the FIRST scalar of each grapheme (`grapheme.chars().next()`). -/
def Row.render (r : Row) (s e : Nat) : Str :=
  let e' := min e r.len
  let s' := min s e'
  (((graphemes r.text).drop s').take (e' - s')).filterMap List.head?

/-- src/editor.rs: `pub struct Position { pub x: usize, pub y: usize }`. -/
structure Position where
  x : Nat
  y : Nat
deriving DecidableEq, Repr

/-- src/document.rs: `Document { rows, filename, dirty }`. -/
structure Document where
  rows : List Row
  filename : Option Str
  dirty : Bool
deriving DecidableEq, Repr

/-- src/document.rs `Document::default`: one default row, no filename,
not dirty. -/
def Document.default : Document := ⟨[Row.default], none, false⟩

/-- src/document.rs `Document::len`: the number of rows. -/
def Document.len (d : Document) : Nat := d.rows.length

/-- src/document.rs `Document::is_empty`: truly empty or a single empty
row. -/
def Document.is_empty (d : Document) : Bool :=
  d.rows.isEmpty || (d.rows.length = 1 && (d.rows.headD Row.default).is_empty)

/-- Rust `str::lines` strips at most one trailing `'\r'` from each piece. -/
def stripCr (s : Str) : Str :=
  if s.getLast? = some '\r' then s.dropLast else s

/-- Splitting on `'\n'` exactly as Rust `str::split('\n')`: always at least
one (possibly empty) piece; a separator ends the current piece. -/
def splitNl : Str → List Str
  | [] => [[]]
  | c :: rest =>
      if c = '\n' then [] :: splitNl rest
      else
        match splitNl rest with
        | [] => [[c]]
        | h :: t => (c :: h) :: t

/-- Model of Rust `str::lines`: split on `'\n'`, drop the trailing empty
piece produced by a final terminator (or by the empty string), strip one
trailing `'\r'` from each line. -/
def rustLines (s : Str) : List Str :=
  let ps := splitNl s
  (if ps.getLast? = some [] then ps.dropLast else ps).map stripCr

/-- src/document.rs `Document::open`: `contents` is the result of
`fs::read_to_string` (`none` = read error).  On error: zero rows, the
filename recorded, not dirty.  On success: one `Row::from` per `lines()`
piece. -/
def Document.openFile (filename : Str) (contents : Option Str) : Document :=
  match contents with
  | none => ⟨[], some filename, false⟩
  | some s => ⟨(rustLines s).map Row.fromStr, some filename, false⟩

/-- The byte contents `Document::save` writes on success: each row's
`as_bytes()` followed by one `b"\n"`, for every row including the last. -/
def Document.saveBytes (d : Document) : Str :=
  (d.rows.map (fun r => r.text ++ ['\n'])).flatten

/-- One step of the write loop in `Document::save`: row `k` issues write
call `2*k` (`write_all(row.as_bytes())`) and write call `2*k+1`
(`write(b"\n")`); `writeOk` says which write calls succeed; the first
failure aborts via `?`. -/
def writeRows (rows : List Row) (writeOk : Nat → Bool) (k : Nat) : Except Unit Unit :=
  match rows with
  | [] => .ok ()
  | _ :: rest =>
      if writeOk k then
        if writeOk (k + 1) then writeRows rest writeOk (k + 2)
        else .error ()
      else .error ()

/-- src/document.rs `Document::save`, with the file system abstracted as
oracles: `createOk` is whether `File::create` succeeds and `writeOk n`
whether the `n`-th write call succeeds.  `Ok(())` immediately when no
filename is set; any failure propagates with `?` before `dirty` is
touched; `dirty = false` only after the whole loop succeeded. -/
def Document.save (d : Document) (createOk : Bool) (writeOk : Nat → Bool) :
    Document × Except Unit Unit :=
  match d.filename with
  | none => (d, .ok ())
  | some _ =>
      if createOk then
        match writeRows d.rows writeOk 0 with
        | .ok _ => (⟨d.rows, d.filename, false⟩, .ok ())
        | .error e => (d, .error e)
      else (d, .error ())

/-- src/document.rs `Document::insert`: no-op if `at.y > len()`; else set
dirty and either push a fresh row holding `c` (at `y = len()`) or insert
into the addressed row. -/
def Document.insert (d : Document) (at_ : Position) (c : Char) : Document :=
  if at_.y > d.len then d
  else if at_.y = d.len then
    ⟨d.rows ++ [Row.default.insert 0 c], d.filename, true⟩
  else
    ⟨d.rows.set at_.y ((d.rows.getD at_.y Row.default).insert at_.x c), d.filename, true⟩

/-- src/document.rs `Document::insert_newline`: no-op if `at.y > len()`;
else set dirty and either push a default row (at `y = len()`) or split the
addressed row and insert the suffix right after it. -/
def Document.insert_newline (d : Document) (at_ : Position) : Document :=
  if at_.y > d.len then d
  else if at_.y = d.len then ⟨d.rows ++ [Row.default], d.filename, true⟩
  else
    let pair := (d.rows.getD at_.y Row.default).split at_.x
    ⟨(d.rows.set at_.y pair.1).insertIdx (at_.y + 1) pair.2, d.filename, true⟩

/-- src/document.rs `Document::delete`: no-op if `at.y >= len()`; else set
dirty; merge the next row in when `at.x` equals the row's `len()` and a
next row exists, otherwise delete within the row. -/
def Document.delete (d : Document) (at_ : Position) : Document :=
  if at_.y ≥ d.len then d
  else if at_.x = (d.rows.getD at_.y Row.default).len ∧ at_.y + 1 < d.len then
    ⟨(d.rows.eraseIdx (at_.y + 1)).set at_.y
       ((d.rows.getD at_.y Row.default).append (d.rows.getD (at_.y + 1) Row.default)),
     d.filename, true⟩
  else
    ⟨d.rows.set at_.y ((d.rows.getD at_.y Row.default).delete at_.x), d.filename, true⟩

/-- src/editor.rs: `const SCROLLOFF: usize = 5`. -/
def SCROLLOFF : Nat := 5

/-- src/editor.rs `Editor::scroll`: recompute the scroll offset from the
cursor and the terminal size; all `usize` saturating arithmetic is `Nat`
arithmetic (`saturating_sub` = truncated subtraction). -/
def scroll (cursor offset : Position) (width height : Nat) : Position :=
  let windowEndX := offset.x + width
  let windowEndY := offset.y + height
  let wsy :=
    if cursor.y < offset.y + SCROLLOFF then cursor.y - SCROLLOFF
    else if cursor.y ≥ windowEndY - SCROLLOFF then
      cursor.y - height + (SCROLLOFF + 1)
    else offset.y
  let wsx :=
    if cursor.x < offset.x then cursor.x
    else if cursor.x ≥ windowEndX then cursor.x - width + 1
    else offset.x
  ⟨wsx, wsy⟩

/-! ### Grapheme segmentation theory

Structural facts about `graphemes`, used to show that `Row::split` restores
the `length == grapheme count` invariant. -/

/-- A well-formed cluster: nonempty, every scalar after the first a
combining mark. -/
def chunkTail : Str → Bool
  | [] => false
  | _ :: t => t.all isCombining

/-- A cluster that can start after a boundary: a non-combining scalar
followed only by combining marks. -/
def freshChunk : Str → Bool
  | [] => false
  | h :: t => !isCombining h && t.all isCombining

/-- A cluster list as produced by `graphemes`: the first cluster may start
with any scalar, every later cluster starts with a non-combining one. -/
def segmented : List Str → Bool
  | [] => true
  | g :: rest => chunkTail g && rest.all freshChunk

theorem graphemesAux_flatten (rest : Str) :
    ∀ acc : Str, (graphemesAux acc rest).flatten = acc ++ rest := by
  induction rest with
  | nil => intro acc; simp [graphemesAux]
  | cons c rest ih =>
      intro acc
      simp only [graphemesAux]
      split
      · rw [ih]; simp
      · rw [List.flatten_cons, ih]; simp

theorem graphemes_flatten (s : Str) : (graphemes s).flatten = s := by
  cases s with
  | nil => rfl
  | cons c rest => simp [graphemes, graphemesAux_flatten]

theorem freshChunk_extend {acc : Str} {c : Char} (h : freshChunk acc = true)
    (hc : isCombining c = true) : freshChunk (acc ++ [c]) = true := by
  cases acc with
  | nil => simp [freshChunk] at h
  | cons a t =>
      simp only [freshChunk, Bool.and_eq_true, Bool.not_eq_true'] at h
      simp [freshChunk, List.all_append, h.1, h.2, hc]

theorem chunkTail_extend {acc : Str} {c : Char} (h : chunkTail acc = true)
    (hc : isCombining c = true) : chunkTail (acc ++ [c]) = true := by
  cases acc with
  | nil => simp [chunkTail] at h
  | cons a t =>
      simp only [chunkTail] at h
      simp [chunkTail, List.all_append, h, hc]

theorem graphemesAux_fresh (rest : Str) :
    ∀ acc : Str, freshChunk acc = true →
      (graphemesAux acc rest).all freshChunk = true := by
  induction rest with
  | nil => intro acc h; simp [graphemesAux, h]
  | cons c rest ih =>
      intro acc h
      simp only [graphemesAux]
      split
      · exact ih _ (freshChunk_extend h (by assumption))
      · rename_i hc
        simp only [List.all_cons, Bool.and_eq_true]
        exact ⟨h, ih [c] (by simp [freshChunk, hc])⟩

theorem graphemesAux_segmented (rest : Str) :
    ∀ acc : Str, chunkTail acc = true →
      segmented (graphemesAux acc rest) = true := by
  induction rest with
  | nil => intro acc h; simp [graphemesAux, segmented, h]
  | cons c rest ih =>
      intro acc h
      simp only [graphemesAux]
      split
      · exact ih _ (chunkTail_extend h (by assumption))
      · rename_i hc
        simp only [segmented, Bool.and_eq_true]
        exact ⟨h, graphemesAux_fresh rest [c] (by simp [freshChunk, hc])⟩

theorem graphemes_segmented (s : Str) : segmented (graphemes s) = true := by
  cases s with
  | nil => rfl
  | cons c rest =>
      exact graphemesAux_segmented rest [c] (by simp [chunkTail])

theorem graphemesAux_append_combining (t : Str) :
    ∀ (acc u : Str), t.all isCombining = true →
      graphemesAux acc (t ++ u) = graphemesAux (acc ++ t) u := by
  induction t with
  | nil => intro acc u _; simp
  | cons c t ih =>
      intro acc u h
      simp only [List.all_cons, Bool.and_eq_true] at h
      simp only [List.cons_append, graphemesAux, h.1, if_true, List.append_eq]
      rw [ih _ u h.2, List.append_assoc]
      rfl

theorem graphemesAux_fresh_flatten (rest : List Str) (acc : Str)
    (h : rest.all freshChunk = true) :
    graphemesAux acc rest.flatten = acc :: graphemes rest.flatten := by
  cases rest with
  | nil => simp [graphemesAux, graphemes]
  | cons g rest =>
      simp only [List.all_cons, Bool.and_eq_true] at h
      cases g with
      | nil => simp [freshChunk] at h
      | cons hd t =>
          simp only [freshChunk, Bool.and_eq_true, Bool.not_eq_true'] at h
          simp [List.flatten_cons, List.cons_append, graphemesAux,
            h.1.1, graphemes, List.append_eq]

theorem fresh_chunkTail {g : Str} (h : freshChunk g = true) :
    chunkTail g = true := by
  cases g with
  | nil => simp [freshChunk] at h
  | cons hd t =>
      simp only [freshChunk, Bool.and_eq_true] at h
      simp [chunkTail, h.2]

theorem allFresh_segmented {cs : List Str} (h : cs.all freshChunk = true) :
    segmented cs = true := by
  cases cs with
  | nil => rfl
  | cons g rest =>
      simp only [List.all_cons, Bool.and_eq_true] at h
      simp [segmented, fresh_chunkTail h.1, h.2]

theorem segmented_flatten_graphemes :
    ∀ cs : List Str, segmented cs = true → graphemes cs.flatten = cs := by
  intro cs
  induction cs with
  | nil => intro _; rfl
  | cons g rest ih =>
      intro h
      simp only [segmented, Bool.and_eq_true] at h
      cases g with
      | nil => simp [chunkTail] at h
      | cons hd t =>
          simp only [chunkTail] at h
          simp only [List.flatten_cons, List.cons_append, graphemes]
          rw [graphemesAux_append_combining t [hd] rest.flatten h.1,
            List.singleton_append,
            graphemesAux_fresh_flatten rest (hd :: t) h.2,
            ih (allFresh_segmented h.2)]

theorem all_take {α : Type} (p : α → Bool) (l : List α) (n : Nat)
    (h : l.all p = true) : (l.take n).all p = true := by
  rw [List.all_eq_true] at h ⊢
  exact fun x hx => h x (List.mem_of_mem_take hx)

theorem all_drop {α : Type} (p : α → Bool) (l : List α) (n : Nat)
    (h : l.all p = true) : (l.drop n).all p = true := by
  rw [List.all_eq_true] at h ⊢
  exact fun x hx => h x (List.mem_of_mem_drop hx)

theorem segmented_take (cs : List Str) (n : Nat) (h : segmented cs = true) :
    segmented (cs.take n) = true := by
  cases n with
  | zero => rfl
  | succ n =>
      cases cs with
      | nil => rfl
      | cons g rest =>
          simp only [segmented, Bool.and_eq_true] at h
          simp only [List.take_succ_cons, segmented, Bool.and_eq_true]
          exact ⟨h.1, all_take _ _ _ h.2⟩

theorem segmented_drop (cs : List Str) (n : Nat) (h : segmented cs = true) :
    segmented (cs.drop n) = true := by
  cases n with
  | zero => exact h
  | succ n =>
      cases cs with
      | nil => rfl
      | cons g rest =>
          simp only [segmented, Bool.and_eq_true] at h
          rw [List.drop_succ_cons]
          exact allFresh_segmented (all_drop _ _ n h.2)

/-! ### List and serialization plumbing -/

theorem set_getD_self {α : Type} :
    ∀ (l : List α) (n : Nat) (dflt : α), n < l.length →
      l.set n (l.getD n dflt) = l := by
  intro l
  induction l with
  | nil => intro n _ h; simp at h
  | cons a t ih =>
      intro n dflt h
      cases n with
      | zero => rfl
      | succ n =>
          simp only [List.set_cons_succ, List.getD_cons_succ]
          rw [ih n dflt (by simpa using h)]

theorem splitNl_append_nl :
    ∀ xs rest : Str, '\n' ∉ xs →
      splitNl (xs ++ '\n' :: rest) = xs :: splitNl rest := by
  intro xs
  induction xs with
  | nil => intro rest _; simp [splitNl]
  | cons c xs ih =>
      intro rest h
      simp only [List.mem_cons, not_or] at h
      have hc : ¬ c = '\n' := fun hh => h.1 hh.symm
      simp only [List.cons_append, splitNl, if_neg hc, List.append_eq]
      rw [ih rest h.2]

theorem splitNl_saveBytes :
    ∀ rows : List Row, (∀ r ∈ rows, '\n' ∉ r.text) →
      splitNl ((rows.map (fun r => r.text ++ ['\n'])).flatten)
        = rows.map Row.text ++ [[]] := by
  intro rows
  induction rows with
  | nil => intro _; rfl
  | cons r rest ih =>
      intro h
      simp only [List.map_cons, List.flatten_cons, List.append_assoc,
        List.singleton_append]
      rw [splitNl_append_nl _ _ (h r (List.mem_cons_self r rest)),
        ih (fun x hx => h x (List.mem_cons_of_mem r hx))]
      rfl

theorem stripCr_of_no_cr {s : Str} (h : s.getLast? ≠ some '\r') :
    stripCr s = s := by
  simp [stripCr, h]

/-- `lines(save-bytes)` gives back exactly the row texts, provided no row
text contains an interior `'\n'` or ends in `'\r'`. -/
theorem rustLines_saveBytes (rows : List Row)
    (h : ∀ r ∈ rows, '\n' ∉ r.text ∧ r.text.getLast? ≠ some '\r') :
    rustLines ((rows.map (fun r => r.text ++ ['\n'])).flatten)
      = rows.map Row.text := by
  unfold rustLines
  rw [splitNl_saveBytes rows (fun r hr => (h r hr).1)]
  simp only [List.getLast?_concat, if_pos, List.dropLast_concat, List.map_map]
  exact List.map_congr_left
    (fun r hr => stripCr_of_no_cr ((h r hr).2))

/-! ### Claim theorems -/

/-- C1: the spec requires `Line.insert(at, '\t')` to insert four space
cells and credit 4 to `length`.  The code does not: appending (`at >= len`,
in particular at column 0 of an empty line) pushes the raw tab and credits
1; the mid-line path writes four spaces into the text but still credits
only 1.  Evaluated at the claim's own input—empty line, column 0—the result
has length 1 and renders `[0,4)` as a single raw tab, not four spaces. -/
theorem tab_insert_code_behavior :
    (Row.default.insert 0 '\t').text = ['\t'] ∧
    (Row.default.insert 0 '\t').len = 1 ∧
    Row.render (Row.default.insert 0 '\t') 0 4 = ['\t'] ∧
    ((Row.fromStr ['a', 'b']).insert 1 '\t').text = ['a', ' ', ' ', ' ', ' ', 'b'] ∧
    ((Row.fromStr ['a', 'b']).insert 1 '\t').len = 3 := by decide

/-- C2: the spec requires `from(text).length()` to be the grapheme-cluster
count of `text`; the code initializes `len` with `line.len()`, the byte
length.  On the claim's own example `"déjà"` (four clusters, six UTF-8
bytes) the constructed row has length 6, not 4. -/
theorem fromStr_len_counts_bytes :
    (Row.fromStr ['d', 'é', 'j', 'à']).len = 6 ∧
    (graphemes ['d', 'é', 'j', 'à']).length = 4 ∧
    (Row.fromStr ['d', 'é', 'j', 'à']).len ≠ (graphemes ['d', 'é', 'j', 'à']).length := by
  decide

/-- C3: the spec requires `render` to reproduce each grapheme cluster in
full; the code pushes only `grapheme.chars().next()`, the first scalar of
each cluster.  On `"e" + U+0301` (one cluster of two scalars), rendering
cells `[0,1)` returns only the base `'e'`, truncating the cluster to its
base code point. -/
theorem render_truncates_combining :
    graphemes ['e', Char.ofNat 0x301] = [['e', Char.ofNat 0x301]] ∧
    (Row.fromStr ['e', Char.ofNat 0x301]).render 0 1 = ['e'] ∧
    (Row.fromStr ['e', Char.ofNat 0x301]).render 0 1 ≠ ['e', Char.ofNat 0x301] := by
  decide

/-- C4: one scroll recomputation with margin 5 updates the row offset as
the claim states, all subtractions being `usize::saturating_sub` (floored
at 0): below `offset.row + 5` the offset becomes `cursor.row - 5`; at or
past `offset.row + height - 5` it becomes `cursor.row - height + 5 + 1`;
otherwise it is unchanged. -/
theorem scroll_vertical_spec (cursor offset : Position) (width height : Nat) :
    (cursor.y < offset.y + 5 →
       (scroll cursor offset width height).y = cursor.y - 5) ∧
    (¬ cursor.y < offset.y + 5 → cursor.y ≥ offset.y + height - 5 →
       (scroll cursor offset width height).y = cursor.y - height + 5 + 1) ∧
    (¬ cursor.y < offset.y + 5 → ¬ cursor.y ≥ offset.y + height - 5 →
       (scroll cursor offset width height).y = offset.y) := by
  refine ⟨fun h1 => ?_, fun h1 h2 => ?_, fun h1 h2 => ?_⟩
  · simp [scroll, SCROLLOFF, h1]
  · simp [scroll, SCROLLOFF, h1, h2]
  · simp [scroll, SCROLLOFF, h1, h2]

/-- C4 witness: the spec's own example—height 10, offset 0, cursor moved to
row 20—lands in the second branch and yields offset row `20 - 10 + 5 + 1 =
16`. -/
theorem scroll_vertical_spec_witness :
    ¬ (20 : Nat) < 0 + 5 ∧ (20 : Nat) ≥ 0 + 10 - 5 ∧
    (scroll ⟨0, 20⟩ ⟨0, 0⟩ 80 10).y = 20 - 10 + 5 + 1 :=
  ⟨by decide, by decide,
    (scroll_vertical_spec ⟨0, 20⟩ ⟨0, 0⟩ 80 10).2.1 (by decide) (by decide)⟩

/-- C5 counterexample: the round trip is not universal.  A buffer holding
the single line `"a\nb"` (constructible through the public mutation API,
e.g. `insert` of `'\n'`) saves as `"a\nb\n"`, which reopens as the two
lines `"a"`, `"b"`: the texts differ and the line count grows.  Likewise a
buffer holding the single line `"a\r"` saves as `"a\r\n"`, which `lines()`
reads back as just `"a"`: the text is not preserved. -/
theorem save_reopen_counterexample :
    (¬ (((Document.openFile ['f']
          (some (Document.saveBytes ⟨[⟨['a', '\n', 'b'], 3⟩], some ['f'], false⟩))).rows.map
            Row.text
          = [['a', '\n', 'b']]) ∧
       (Document.openFile ['f']
          (some (Document.saveBytes ⟨[⟨['a', '\n', 'b'], 3⟩], some ['f'], false⟩))).len = 1)) ∧
    (¬ (((Document.openFile ['f']
          (some (Document.saveBytes ⟨[⟨['a', '\r'], 2⟩], some ['f'], false⟩))).rows.map
            Row.text
          = [['a', '\r']]) ∧
       (Document.openFile ['f']
          (some (Document.saveBytes ⟨[⟨['a', '\r'], 2⟩], some ['f'], false⟩))).len = 1)) := by
  decide

/-- C5 (amended): for every buffer with a path each of whose line texts
contains no `'\n'` and does not end in `'\r'`, saving writes each line's
bytes plus one trailing `'\n'` (`saveBytes`) and reopening that content
yields identical line texts and an equal line count. -/
theorem save_reopen_roundtrip (d : Document) (path : Str)
    (hpath : d.filename = some path)
    (hrows : ∀ r ∈ d.rows, '\n' ∉ r.text ∧ r.text.getLast? ≠ some '\r') :
    (Document.openFile path (some d.saveBytes)).rows.map Row.text
      = d.rows.map Row.text ∧
    (Document.openFile path (some d.saveBytes)).len = d.len := by
  have key := rustLines_saveBytes d.rows hrows
  constructor
  · simp only [Document.openFile, Document.saveBytes]
    rw [List.map_map, key]
    simp [Function.comp, Row.fromStr]
  · simp only [Document.openFile, Document.saveBytes, Document.len, List.length_map]
    rw [key, List.length_map]

/-- C5 witness: the spec's example—lines `"abc"` and `"déjà"`—round-trips
with identical texts and line count 2. -/
theorem save_reopen_roundtrip_witness :
    (Document.openFile ['f']
        (some (Document.saveBytes
          ⟨[Row.fromStr ['a', 'b', 'c'], Row.fromStr ['d', 'é', 'j', 'à']],
           some ['f'], false⟩))).rows.map Row.text
      = ([Row.fromStr ['a', 'b', 'c'], Row.fromStr ['d', 'é', 'j', 'à']] : List Row).map
          Row.text ∧
    (Document.openFile ['f']
        (some (Document.saveBytes
          ⟨[Row.fromStr ['a', 'b', 'c'], Row.fromStr ['d', 'é', 'j', 'à']],
           some ['f'], false⟩))).len
      = Document.len ⟨[Row.fromStr ['a', 'b', 'c'], Row.fromStr ['d', 'é', 'j', 'à']],
          some ['f'], false⟩ :=
  save_reopen_roundtrip
    ⟨[Row.fromStr ['a', 'b', 'c'], Row.fromStr ['d', 'é', 'j', 'à']], some ['f'], false⟩
    ['f'] rfl (by decide)

theorem set_eq_take_cons_drop {α : Type} (l : List α) (n : Nat) (v : α)
    (h : n < l.length) : l.set n v = l.take n ++ v :: l.drop (n + 1) := by
  rw [List.set_eq_take_append_cons_drop, if_pos h]

theorem set_eraseIdx_succ {α : Type} :
    ∀ (l : List α) (n : Nat) (v : α), n + 1 < l.length →
      (l.eraseIdx (n + 1)).set n v = l.take n ++ v :: l.drop (n + 2) := by
  intro l
  induction l with
  | nil => intro n v h; simp at h
  | cons a t ih =>
      intro n v h
      cases n with
      | zero =>
          cases t with
          | nil => simp at h
          | cons b t' => rfl
      | succ n =>
          simp only [List.eraseIdx_cons_succ, List.set_cons_succ,
            List.take_succ_cons, List.drop_succ_cons, List.cons_append]
          rw [ih n v (by simpa using h)]

/-- C6: `delete_at(pos)` is a no-op for `pos.row >= line_count()`; when
`pos.column` equals the addressed line's `len()` and a following line
exists it removes that following line and appends its text (and adds its
`len`) onto the addressed line, decreasing the line count by exactly one;
otherwise it deletes within the addressed line via `Row::delete`. -/
theorem delete_at_spec (d : Document) (p : Position) :
    (p.y ≥ d.len → d.delete p = d) ∧
    (p.y < d.len → p.x = (d.rows.getD p.y Row.default).len → p.y + 1 < d.len →
       (d.delete p).rows
           = d.rows.take p.y
             ++ ((d.rows.getD p.y Row.default).append (d.rows.getD (p.y + 1) Row.default))
               :: d.rows.drop (p.y + 2) ∧
       (d.delete p).len = d.len - 1) ∧
    (p.y < d.len → ¬ (p.x = (d.rows.getD p.y Row.default).len ∧ p.y + 1 < d.len) →
       (d.delete p).rows
           = d.rows.take p.y
             ++ ((d.rows.getD p.y Row.default).delete p.x) :: d.rows.drop (p.y + 1)) := by
  refine ⟨fun h => ?_, fun hlt hx hnext => ?_, fun hlt hne => ?_⟩
  · simp [Document.delete, h]
  · constructor
    · simp only [Document.delete, if_neg (by omega : ¬ p.y ≥ d.len),
        if_pos (And.intro hx hnext)]
      exact set_eraseIdx_succ d.rows p.y _ hnext
    · simp only [Document.delete, if_neg (by omega : ¬ p.y ≥ d.len),
        if_pos (And.intro hx hnext)]
      simp only [Document.len, List.length_set]
      rw [List.length_eraseIdx,
        if_pos (show p.y + 1 < d.rows.length from hnext)]
  · simp only [Document.delete, if_neg (by omega : ¬ p.y ≥ d.len), if_neg hne]
    exact set_eq_take_cons_drop d.rows p.y _ hlt

/-- C6 witness: on the buffer `["hello","world"]`, `delete_at(column 5,
row 0)` merges to the single line `"helloworld"` with line count 1. -/
theorem delete_at_spec_witness :
    (Document.delete
        ⟨[⟨['h', 'e', 'l', 'l', 'o'], 5⟩, ⟨['w', 'o', 'r', 'l', 'd'], 5⟩], none, false⟩
        ⟨5, 0⟩).rows
      = [⟨['h', 'e', 'l', 'l', 'o', 'w', 'o', 'r', 'l', 'd'], 10⟩] ∧
    (Document.delete
        ⟨[⟨['h', 'e', 'l', 'l', 'o'], 5⟩, ⟨['w', 'o', 'r', 'l', 'd'], 5⟩], none, false⟩
        ⟨5, 0⟩).len = 1 := by
  have h := (delete_at_spec
    ⟨[⟨['h', 'e', 'l', 'l', 'o'], 5⟩, ⟨['w', 'o', 'r', 'l', 'd'], 5⟩], none, false⟩
    ⟨5, 0⟩).2.1 (by decide) (by decide) (by decide)
  refine ⟨?_, ?_⟩
  · rw [h.1]; decide
  · rw [h.2]; decide

/-- C7: an out-of-bounds row makes every mutation a silent no-op returning
the buffer unchanged (rows, filename and dirty flag intact): `insert` and
`insert_newline` for `row > line_count()`, `delete` for `row >=
line_count()`.  An out-of-bounds column never fails either: at row level an
excessive index makes `Row::insert` clamp to an append of the single
character and makes `Row::delete` a no-op.  All these operations are total:
no error is ever surfaced. -/
theorem invalid_position_spec (d : Document) (p : Position) (c : Char) (r : Row) :
    (p.y > d.len → d.insert p c = d) ∧
    (p.y > d.len → d.insert_newline p = d) ∧
    (p.y ≥ d.len → d.delete p = d) ∧
    (p.x ≥ r.len → r.insert p.x c = ⟨r.text ++ [c], r.len + 1⟩) ∧
    (p.x ≥ r.len → r.delete p.x = r) := by
  refine ⟨fun h => ?_, fun h => ?_, fun h => ?_, fun h => ?_, fun h => ?_⟩
  · simp [Document.insert, h]
  · simp [Document.insert_newline, h]
  · simp [Document.delete, h]
  · simp [Row.insert, h]
  · simp [Row.delete, h]

/-- C7 witness: on the default one-line buffer, mutating at row 2 (and
deleting at row 2 ≥ 1) changes nothing; on a one-cell row, inserting at
column 3 appends and deleting at column 3 is a no-op. -/
theorem invalid_position_spec_witness :
    Document.insert Document.default ⟨3, 2⟩ 'q' = Document.default ∧
    Document.insert_newline Document.default ⟨3, 2⟩ = Document.default ∧
    Document.delete Document.default ⟨3, 2⟩ = Document.default ∧
    Row.insert ⟨['a'], 1⟩ 3 'q' = ⟨['a', 'q'], 2⟩ ∧
    Row.delete ⟨['a'], 1⟩ 3 = ⟨['a'], 1⟩ := by
  have h := invalid_position_spec Document.default ⟨3, 2⟩ 'q' ⟨['a'], 1⟩
  exact ⟨h.1 (by decide), h.2.1 (by decide), h.2.2.1 (by decide),
    h.2.2.2.1 (by decide), h.2.2.2.2 (by decide)⟩

/-- C8: if `save()` fails (file creation or any write), the in-memory
buffer is returned exactly as it was—in particular `dirty` is not cleared;
`rows` and `filename` are never touched by `save` at all; and whenever a
buffer that was dirty comes out clean, the save succeeded. -/
theorem save_error_spec (d : Document) (createOk : Bool) (writeOk : Nat → Bool) :
    ((d.save createOk writeOk).2 = .error () → (d.save createOk writeOk).1 = d) ∧
    (d.save createOk writeOk).1.rows = d.rows ∧
    (d.save createOk writeOk).1.filename = d.filename ∧
    (d.dirty = true → (d.save createOk writeOk).1.dirty = false →
       (d.save createOk writeOk).2 = .ok ()) := by
  obtain ⟨rows, fname, dirty⟩ := d
  cases fname with
  | none => exact ⟨fun h => (nomatch h), rfl, rfl, fun _ _ => rfl⟩
  | some fn =>
      cases createOk with
      | false =>
          refine ⟨fun _ => rfl, rfl, rfl, fun h1 h2 => ?_⟩
          subst h1
          simp [Document.save] at h2
      | true =>
          cases hw : writeRows rows writeOk 0 with
          | ok u =>
              cases u
              refine ⟨fun h => ?_, ?_, ?_, fun _ _ => ?_⟩
              · simp [Document.save, hw] at h
              · simp [Document.save, hw]
              · simp [Document.save, hw]
              · simp [Document.save, hw]
          | error e =>
              cases e
              refine ⟨fun _ => ?_, ?_, ?_, fun h1 h2 => ?_⟩
              · simp [Document.save, hw]
              · simp [Document.save, hw]
              · simp [Document.save, hw]
              · subst h1
                simp [Document.save, hw] at h2

/-- C8 witness: a dirty one-row buffer whose second write call fails comes
back unchanged with the error reported; in particular it is still dirty. -/
theorem save_error_spec_witness :
    ((Document.save ⟨[Row.default], some ['f'], true⟩ true (fun n => n = 0)).2
        = .error () →
      (Document.save ⟨[Row.default], some ['f'], true⟩ true (fun n => n = 0)).1
        = ⟨[Row.default], some ['f'], true⟩) ∧
    (Document.save ⟨[Row.default], some ['f'], true⟩ true (fun n => n = 0)).1.rows
      = [Row.default] ∧
    (Document.save ⟨[Row.default], some ['f'], true⟩ true (fun n => n = 0)).1.filename
      = some ['f'] ∧
    ((true : Bool) = true →
      (Document.save ⟨[Row.default], some ['f'], true⟩ true (fun n => n = 0)).1.dirty
        = false →
      (Document.save ⟨[Row.default], some ['f'], true⟩ true (fun n => n = 0)).2
        = .ok ()) :=
  save_error_spec ⟨[Row.default], some ['f'], true⟩ true (fun n => n = 0)

/-- C9: after `split(at)`, both the prefix (the mutated `self`) and the
returned suffix satisfy the `length == grapheme count of text` invariant—
whatever the `len` field held before the call—and the two texts concatenate
back to the original text. -/
theorem split_restores_invariant (r : Row) (a : Nat) :
    (r.split a).1.len = (graphemes (r.split a).1.text).length ∧
    (r.split a).2.len = (graphemes (r.split a).2.text).length ∧
    (r.split a).1.text ++ (r.split a).2.text = r.text := by
  refine ⟨?_, ?_, ?_⟩
  · show (List.take a (graphemes r.text)).length
        = (graphemes (List.take a (graphemes r.text)).flatten).length
    rw [segmented_flatten_graphemes _ (segmented_take _ a (graphemes_segmented r.text))]
  · show (List.drop a (graphemes r.text)).length
        = (graphemes (List.drop a (graphemes r.text)).flatten).length
    rw [segmented_flatten_graphemes _ (segmented_drop _ a (graphemes_segmented r.text))]
  · show (List.take a (graphemes r.text)).flatten
        ++ (List.drop a (graphemes r.text)).flatten = r.text
    rw [← List.flatten_append, List.take_append_drop, graphemes_flatten]

/-- C10: deleting at a valid last row with the column at or past the row's
length changes no row (the row-level delete is a no-op) yet still sets the
dirty flag. -/
theorem delete_trailing_sets_dirty (d : Document) (p : Position)
    (h1 : p.y < d.len) (h2 : p.y + 1 = d.len)
    (h3 : p.x ≥ (d.rows.getD p.y Row.default).len) :
    (d.delete p).rows = d.rows ∧ (d.delete p).dirty = true := by
  unfold Document.delete
  rw [if_neg (by omega : ¬ p.y ≥ d.len),
    if_neg (fun hc => by omega : ¬ (p.x = (d.rows.getD p.y Row.default).len ∧ p.y + 1 < d.len))]
  constructor
  · show d.rows.set p.y ((d.rows.getD p.y Row.default).delete p.x) = d.rows
    rw [show (d.rows.getD p.y Row.default).delete p.x = d.rows.getD p.y Row.default by
      unfold Row.delete; rw [if_pos h3]]
    exact set_getD_self d.rows p.y Row.default h1
  · rfl

/-- C10 witness: on the one-line buffer `["a"]`, deleting at column 1 of
row 0 (column = length, no following line) leaves the rows untouched but
marks the buffer dirty. -/
theorem delete_trailing_sets_dirty_witness :
    (Document.delete ⟨[⟨['a'], 1⟩], none, false⟩ ⟨1, 0⟩).rows = [⟨['a'], 1⟩] ∧
    (Document.delete ⟨[⟨['a'], 1⟩], none, false⟩ ⟨1, 0⟩).dirty = true :=
  delete_trailing_sets_dirty ⟨[⟨['a'], 1⟩], none, false⟩ ⟨1, 0⟩
    (by decide) (by decide) (by decide)
